import Mathlib

/-!
# Verification of the ngx-gen-ai-chat streaming core (`CohereService`)

Shallow embedding of `src/fesm2022/ngx-gen-ai-chat.mjs` (class `CohereService`):
the SSE/NDJSON frame decoder with partial-line buffering (`readStream`),
the tool-call accumulator (`toolCallsMap`), the memoizing tool executor
(`handleToolCalls` with `toolCache`), the continuation-request builder,
argument normalization (`ensureJsonString`) and the cancellation gate
(`stopStream` / `generateResponse`).

JavaScript strings are modelled as `List Char`.  JavaScript values flowing
through the stream (results of `JSON.parse`) are modelled by the inductive
type `Json`; the JS value `undefined` is modelled as `Option.none` at use
sites.  `JSON.parse` / `JSON.stringify` are modelled by the executable
functions `jsonParse` / `jsonStringify` below (numbers are kept as their
source lexemes, since no code path of this library inspects a numeric
value other than for truthiness).
-/

set_option maxHeartbeats 1000000

namespace AiChat

/-- JavaScript strings, modelled as lists of characters. -/
abbrev Str := List Char

/-- The `\x7b` character (left curly brace). -/
def lbrace : Char := Char.ofNat 123

/-- The `\x7d` character (right curly brace). -/
def rbrace : Char := Char.ofNat 125

/-- Whitespace recognized by `String.prototype.trim` (the subset relevant
here: space, tab, LF, CR, VT, FF). -/
def jsWsChar (c : Char) : Bool :=
  c = ' ' || c = '\t' || c = '\n' || c = '\r' || c.toNat = 11 || c.toNat = 12

/-- JS `String.prototype.trim`: strip leading and trailing whitespace. -/
def jsTrim (s : Str) : Str :=
  ((s.dropWhile jsWsChar).reverse.dropWhile jsWsChar).reverse

/-- Parsed JSON values (the result domain of `JSON.parse`).  Numbers keep
their source lexeme. -/
inductive Json where
  | null : Json
  | bool (b : Bool) : Json
  | num (lit : Str) : Json
  | str (s : Str) : Json
  | arr (elems : List Json) : Json
  | obj (fields : List (Str × Json)) : Json
deriving Inhabited

mutual

/-- Structural equality of JSON values (JS `Map` keys are compared with
SameValueZero; for parsed JSON data this coincides with structural
equality of the parsed values). -/
def Json.beq : Json → Json → Bool
  | .null, .null => true
  | .bool a, .bool b => a == b
  | .num a, .num b => a == b
  | .str a, .str b => a == b
  | .arr xs, .arr ys => beqJsonList xs ys
  | .obj fs, .obj gs => beqJsonFields fs gs
  | _, _ => false

/-- Elementwise equality of JSON arrays. -/
def beqJsonList : List Json → List Json → Bool
  | [], [] => true
  | x :: xs, y :: ys => Json.beq x y && beqJsonList xs ys
  | _, _ => false

/-- Fieldwise equality of JSON objects. -/
def beqJsonFields : List (Str × Json) → List (Str × Json) → Bool
  | [], [] => true
  | f :: fs, g :: gs => (f.1 == g.1 && Json.beq f.2 g.2) && beqJsonFields fs gs
  | _, _ => false

end

mutual

theorem Json.beq_refl : ∀ a : Json, Json.beq a a = true
  | .null => rfl
  | .bool b => by simp [Json.beq]
  | .num l => by simp [Json.beq]
  | .str s => by simp [Json.beq]
  | .arr xs => beqJsonList_refl xs
  | .obj fs => beqJsonFields_refl fs

theorem beqJsonList_refl : ∀ xs : List Json, Json.beq (.arr xs) (.arr xs) = true
  | [] => rfl
  | x :: xs => by
    have h1 := Json.beq_refl x
    have h2 := beqJsonList_refl xs
    simp [Json.beq, beqJsonList] at *
    exact ⟨h1, h2⟩

theorem beqJsonFields_refl : ∀ fs : List (Str × Json), Json.beq (.obj fs) (.obj fs) = true
  | [] => rfl
  | f :: fs => by
    have h1 := Json.beq_refl f.2
    have h2 := beqJsonFields_refl fs
    simp [Json.beq, beqJsonFields] at *
    exact ⟨h1, h2⟩

end

/-- Key equality for the `toolCallsMap` (keys are `parsed.index`, possibly
`undefined`). -/
def keyBeq : Option Json → Option Json → Bool
  | none, none => true
  | some a, some b => Json.beq a b
  | _, _ => false

theorem keyBeq_refl (k : Option Json) : keyBeq k k = true := by
  cases k with
  | none => rfl
  | some j => exact Json.beq_refl j

/-- Property read `v[k]` on a JS value: objects yield the value of the
last field with that key (`JSON.parse` keeps the last duplicate), any
other non-null value yields `undefined` (`none`).  Reads on `null` are
handled at call sites (they throw in JS). -/
def Json.getField : Json → Str → Option Json
  | .obj fs, k => fs.foldl (fun acc f => if f.1 = k then some f.2 else acc) none
  | _, _ => none

/-- Is the leading JS number lexeme zero-valued (mantissa all zeros)? -/
def numLitIsZero (lit : Str) : Bool :=
  let l := if lit.head? = some '-' then lit.tail else lit
  let mant := l.takeWhile (fun c => c ≠ 'e' && c ≠ 'E')
  mant.all (fun c => c = '0' || c = '.')

/-- JS truthiness of a defined value. -/
def Json.truthy : Json → Bool
  | .null => false
  | .bool b => b
  | .num l => !(numLitIsZero l)
  | .str s => !s.isEmpty
  | .arr _ => true
  | .obj _ => true

/-- JS truthiness of a possibly-`undefined` value. -/
def optTruthy : Option Json → Bool
  | none => false
  | some j => j.truthy

/-- JS `a || b` on possibly-`undefined` values. -/
def jsOr (a b : Option Json) : Option Json :=
  if optTruthy a then a else b

/-- JS optional chaining `v?.k`: `undefined` and `null` short-circuit to
`undefined`; otherwise an ordinary property read. -/
def optChain (v : Option Json) (k : Str) : Option Json :=
  match v with
  | none => none
  | some .null => none
  | some j => j.getField k

/-- Iterated optional chaining `v?.k₁?.k₂?...`. -/
def optChainPath (v : Option Json) : List Str → Option Json
  | [] => v
  | k :: ks => optChainPath (optChain v k) ks

/-- Property path `j.k₁?.k₂?...`: a plain read of the first key (the
receiver is a parsed JSON object, never `null`/`undefined` at call sites)
followed by optional chaining, mirroring `parsed.delta?.message?...`. -/
def getPath (j : Json) : List Str → Option Json
  | [] => some j
  | k :: ks => optChainPath (j.getField k) ks

/-! ## A model of `JSON.parse` and `JSON.stringify` -/

/-- Whitespace accepted by the JSON grammar (what `JSON.parse` skips). -/
def jsonWs (c : Char) : Bool :=
  c = ' ' || c = '\t' || c = '\n' || c = '\r'

/-- Skip JSON whitespace. -/
def skipWs (s : Str) : Str := s.dropWhile jsonWs

/-- Hex digit value (JSON `\u` escapes accept either case). -/
def hexVal (c : Char) : Option Nat :=
  if '0' ≤ c ∧ c ≤ '9' then some (c.toNat - '0'.toNat)
  else if 'a' ≤ c ∧ c ≤ 'f' then some (c.toNat - 'a'.toNat + 10)
  else if 'A' ≤ c ∧ c ≤ 'F' then some (c.toNat - 'A'.toNat + 10)
  else none

/-- Decode a single-character JSON escape (`\"`, `\\`, `\/`, `\b`, `\f`,
`\n`, `\r`, `\t`). -/
def escName (c : Char) : Option Char :=
  if c = '"' then some '"'
  else if c = '\\' then some '\\'
  else if c = '/' then some '/'
  else if c = 'b' then some (Char.ofNat 8)
  else if c = 'f' then some (Char.ofNat 12)
  else if c = 'n' then some '\n'
  else if c = 'r' then some '\r'
  else if c = 't' then some '\t'
  else none

/-- Parse the body of a JSON string literal (after the opening quote).
Returns the decoded characters and the remaining input after the closing
quote.  Raw control characters are rejected, as in the JSON grammar. -/
def parseStringBody : Str → Option (Str × Str)
  | [] => none
  | c :: rest =>
    if c = '"' then some ([], rest)
    else if c = '\\' then
      match rest with
      | [] => none
      | e :: rest2 =>
        if e = 'u' then
          match rest2 with
          | h1 :: h2 :: h3 :: h4 :: rest3 =>
            match hexVal h1, hexVal h2, hexVal h3, hexVal h4 with
            | some a, some b, some c2, some d =>
              (parseStringBody rest3).map
                (fun p => (Char.ofNat (((a * 16 + b) * 16 + c2) * 16 + d) :: p.1, p.2))
            | _, _, _, _ => none
          | _ => none
        else
          match escName e with
          | some c2 => (parseStringBody rest2).map (fun p => (c2 :: p.1, p.2))
          | none => none
    else if c.toNat < 32 then none
    else (parseStringBody rest).map (fun p => (c :: p.1, p.2))

/-- Parse a JSON number, keeping its lexeme.  Grammar:
`-? (0 | [1-9][0-9]*) (. [0-9]+)? ([eE] [+-]? [0-9]+)?`. -/
def parseNumberLit (cs : Str) : Option (Str × Str) := do
  let (sign, cs1) := match cs with
    | '-' :: rest => (['-'], rest)
    | _ => ([], cs)
  let (intPart, cs2) ← match cs1 with
    | '0' :: rest => some (['0'], rest)
    | c :: rest =>
      if '1' ≤ c ∧ c ≤ '9' then
        let digits := rest.takeWhile Char.isDigit
        some (c :: digits, rest.drop digits.length)
      else none
    | [] => none
  let (fracPart, cs3) := match cs2 with
    | '.' :: rest =>
      let digits := rest.takeWhile Char.isDigit
      if digits.isEmpty then ([], cs2) else ('.' :: digits, rest.drop digits.length)
    | _ => ([], cs2)
  -- a lone '.' with no digits is a parse error
  if cs2 ≠ cs3 ∨ cs2.head? ≠ some '.' then
    let (expPart, cs4) := match cs3 with
      | e :: rest =>
        if e = 'e' ∨ e = 'E' then
          let (sgn, rest2) := match rest with
            | s :: r2 => if s = '+' ∨ s = '-' then ([s], r2) else ([], rest)
            | [] => ([], rest)
          let digits := rest2.takeWhile Char.isDigit
          if digits.isEmpty then ([], cs3) else (e :: sgn ++ digits, rest2.drop digits.length)
        else ([], cs3)
      | [] => ([], cs3)
    if cs3.head? = some 'e' ∨ cs3.head? = some 'E' then
      if cs3 = cs4 then none else some (sign ++ intPart ++ fracPart ++ expPart, cs4)
    else
      some (sign ++ intPart ++ fracPart ++ expPart, cs4)
  else none

mutual

/-- Parse one JSON value.  `fuel` bounds the recursion depth; every
recursive call consumes at least one input character, so
`input length + 1` fuel always suffices. -/
def parseValue : Nat → Str → Option (Json × Str)
  | 0, _ => none
  | fuel + 1, cs =>
    match cs with
    | [] => none
    | c :: rest =>
      if c = '"' then (parseStringBody rest).map (fun p => (.str p.1, p.2))
      else if c = lbrace then
        match skipWs rest with
        | c2 :: rest2 => if c2 = rbrace then some (.obj [], rest2) else parseMembers fuel (skipWs rest) []
        | [] => none
      else if c = '[' then
        match skipWs rest with
        | c2 :: rest2 => if c2 = ']' then some (.arr [], rest2) else parseElems fuel (skipWs rest) []
        | [] => none
      else if c = 't' then
        match rest with
        | 'r' :: 'u' :: 'e' :: rest2 => some (.bool true, rest2)
        | _ => none
      else if c = 'f' then
        match rest with
        | 'a' :: 'l' :: 's' :: 'e' :: rest2 => some (.bool false, rest2)
        | _ => none
      else if c = 'n' then
        match rest with
        | 'u' :: 'l' :: 'l' :: rest2 => some (.null, rest2)
        | _ => none
      else (parseNumberLit cs).map (fun p => (.num p.1, p.2))

/-- Parse the members of a JSON object after the opening brace (the empty
object was handled by the caller), accumulating parsed fields. -/
def parseMembers : Nat → Str → List (Str × Json) → Option (Json × Str)
  | 0, _, _ => none
  | fuel + 1, cs, acc =>
    match cs with
    | c :: rest =>
      if c = '"' then
        match parseStringBody rest with
        | some (key, rest2) =>
          match skipWs rest2 with
          | ':' :: rest3 =>
            match parseValue fuel (skipWs rest3) with
            | some (v, rest4) =>
              match skipWs rest4 with
              | ',' :: rest5 => parseMembers fuel (skipWs rest5) (acc ++ [(key, v)])
              | c2 :: rest5 => if c2 = rbrace then some (.obj (acc ++ [(key, v)]), rest5) else none
              | [] => none
            | none => none
          | _ => none
        | none => none
      else none
    | [] => none

/-- Parse the elements of a JSON array after the opening bracket (the
empty array was handled by the caller). -/
def parseElems : Nat → Str → List Json → Option (Json × Str)
  | 0, _, _ => none
  | fuel + 1, cs, acc =>
    match parseValue fuel cs with
    | some (v, rest) =>
      match skipWs rest with
      | ',' :: rest2 => parseElems fuel (skipWs rest2) (acc ++ [v])
      | ']' :: rest2 => some (.arr (acc ++ [v]), rest2)
      | _ => none
    | none => none

end

/-- Model of `JSON.parse`: parse a complete JSON document, or `none` when
`JSON.parse` would throw. -/
def jsonParse (s : Str) : Option Json :=
  match parseValue (s.length + 1) (skipWs s) with
  | some (j, rest) => if (skipWs rest).isEmpty then some j else none
  | none => none

/-- Lower-case hex digit, as produced by `JSON.stringify` in `\u` escapes. -/
def hexDigit (n : Nat) : Char :=
  if n < 10 then Char.ofNat ('0'.toNat + n) else Char.ofNat ('a'.toNat + n - 10)

/-- Escape one character the way `JSON.stringify` quotes strings:
`"` and `\` get a backslash, the five named control characters use their
short escapes, the remaining control characters use `\u00xx`, everything
else is emitted verbatim. -/
def escapeChar (c : Char) : Str :=
  if c = '"' then ['\\', '"']
  else if c = '\\' then ['\\', '\\']
  else if c = '\n' then ['\\', 'n']
  else if c = '\r' then ['\\', 'r']
  else if c = '\t' then ['\\', 't']
  else if c.toNat = 8 then ['\\', 'b']
  else if c.toNat = 12 then ['\\', 'f']
  else if c.toNat < 32 then ['\\', 'u', '0', '0', hexDigit (c.toNat / 16), hexDigit (c.toNat % 16)]
  else [c]

/-- Escape a whole string body. -/
def escapeStr : Str → Str
  | [] => []
  | c :: cs => escapeChar c ++ escapeStr cs

/-- Model of `JSON.stringify` applied to a string value: a quoted, escaped literal. -/
def jsonStringifyStr (s : Str) : Str :=
  '"' :: escapeStr s ++ ['"']

mutual

/-- Model of `JSON.stringify` on parsed values (numbers print their
lexeme; object properties print in insertion order, as in JS). -/
def jsonStringify : Json → Str
  | .null => 'n' :: 'u' :: 'l' :: 'l' :: []
  | .bool true => 't' :: 'r' :: 'u' :: 'e' :: []
  | .bool false => 'f' :: 'a' :: 'l' :: 's' :: 'e' :: []
  | .num l => l
  | .str s => jsonStringifyStr s
  | .arr xs => '[' :: stringifyElems xs ++ [']']
  | .obj fs => lbrace :: stringifyFields fs ++ [rbrace]

/-- Comma-separated stringified array elements. -/
def stringifyElems : List Json → Str
  | [] => []
  | [x] => jsonStringify x
  | x :: xs => jsonStringify x ++ ',' :: stringifyElems xs

/-- Comma-separated stringified object fields. -/
def stringifyFields : List (Str × Json) → Str
  | [] => []
  | [f] => jsonStringifyStr f.1 ++ ':' :: jsonStringify f.2
  | f :: fs => jsonStringifyStr f.1 ++ ':' :: jsonStringify f.2 ++ ',' :: stringifyFields fs

end

mutual

/-- JS string coercion `String(v)` of a defined value (objects print
`[object Object]`, arrays join their elements with commas). -/
def Json.jsStr : Json → Str
  | .null => 'n' :: 'u' :: 'l' :: 'l' :: []
  | .bool true => 't' :: 'r' :: 'u' :: 'e' :: []
  | .bool false => 'f' :: 'a' :: 'l' :: 's' :: 'e' :: []
  | .num l => l
  | .str s => s
  | .arr xs => jsStrJoin xs
  | .obj _ => ('[' :: "object Object".toList) ++ [']']

/-- JS `Array.prototype.toString`: elements joined by commas, `null` as
the empty string. -/
def jsStrJoin : List Json → Str
  | [] => []
  | [.null] => []
  | [x] => Json.jsStr x
  | .null :: xs => ',' :: jsStrJoin xs
  | x :: xs => Json.jsStr x ++ ',' :: jsStrJoin xs

end

/-- Template-literal interpolation of a possibly-`undefined` value
(as in the cache key and error-message back-quoted strings). -/
def jsTemplate : Option Json → Str
  | none => "undefined".toList
  | some j => j.jsStr

/-! ## `CohereService.ensureJsonString` (source lines 218–233) -/

/-- The two-character string `\x7b\x7d`. -/
def emptyObjStr : Str := [lbrace, rbrace]

/-- Embeds `ensureJsonString(val)`: `'\x7b\x7d'` for falsy or whitespace-only
input, `JSON.stringify(val)` for non-strings, the trimmed text when it
already parses as JSON, and the JSON string literal encoding of the
trimmed text otherwise. -/
def ensureJsonString (val : Option Json) : Str :=
  match val with
  | none => emptyObjStr
  | some j =>
    if !j.truthy then emptyObjStr
    else
      match j with
      | .str s =>
        let trimmed := jsTrim s
        if trimmed.isEmpty then emptyObjStr
        else if (jsonParse trimmed).isSome then trimmed
        else jsonStringifyStr trimmed
      | _ => jsonStringify j

/-! ## The frame decoder and tool-call accumulator
(`CohereService.readStream`, source lines 72–150) -/

/-- One accumulated tool-call fragment (`toolCallsMap` values):
`\x7b id, name, arguments \x7d` with `arguments` built by string
concatenation. -/
structure ToolCallFrag where
  id : Option Json
  name : Option Json
  arguments : Str
deriving Inhabited

/-- Observable actions of `readStream` on its collaborators:
`text` is `subject.next(text)`, `dispatch` is the call to
`handleToolCalls(toolCalls, parsed.message, ...)`, `complete` is
`subject.complete()`. -/
inductive Emit where
  | text (t : Json)
  | dispatch (calls : List ToolCallFrag) (message : Option Json)
  | complete
deriving Inhabited

/-- Decoder state: the partial-line `buffer`, the sticky SSE
`currentEventType`, the `toolCallsMap` (an insertion-ordered association
list, as a JS `Map`), whether a terminal event has caused `readStream`
to return, and the trace of emitted actions. -/
structure DecState where
  buffer : Str
  currentEventType : Option Str
  toolCalls : List (Option Json × ToolCallFrag)
  terminated : Bool
  events : List Emit

/-- JS `Map.get` on the accumulator. -/
def mapGet (m : List (Option Json × ToolCallFrag)) (k : Option Json) : Option ToolCallFrag :=
  (m.find? (fun e => keyBeq e.1 k)).map (·.2)

/-- JS `Map.set` on the accumulator: overwrite in place, else append
(JS `Map` keeps the original insertion position on overwrite). -/
def mapSet (m : List (Option Json × ToolCallFrag)) (k : Option Json) (v : ToolCallFrag) :
    List (Option Json × ToolCallFrag) :=
  match m with
  | [] => [(k, v)]
  | e :: rest => if keyBeq e.1 k then (e.1, v) :: rest else e :: mapSet rest k v

/-- In-place mutation of the fragment object held under a key
(`call.arguments += deltaArgs` mutates the map entry). -/
def mapUpdate (m : List (Option Json × ToolCallFrag)) (k : Option Json)
    (f : ToolCallFrag → ToolCallFrag) : List (Option Json × ToolCallFrag) :=
  match m with
  | [] => []
  | e :: rest => if keyBeq e.1 k then (e.1, f e.2) :: rest else e :: mapUpdate rest k f

/-- The expression `parsed.type || currentEventType`, as consumed by the `switch`: the
result is the event-type string when the `\x7c\x7c` yields a string, and
`none` when it yields a value no `case` label can equal
(`null`/`undefined` or a truthy non-string). -/
def effType (parsed : Json) (cet : Option Str) : Option Str :=
  match parsed.getField ("type".toList) with
  | some t => if t.truthy then (match t with | .str s => some s | _ => none) else cet
  | none => cet

/-- The `switch (eventType)` body of `readStream` (source lines 101–138),
acting on one parsed JSON line.  A thrown property access on
`deltaStart.function` when `function` is absent or `null` is caught by
the surrounding `try`/`catch`, leaving the state unchanged. -/
def handleParsed (st : DecState) (parsed : Json) : DecState :=
  match effType parsed st.currentEventType with
  | none => st
  | some et =>
    if et = "content-delta".toList ∨ et = "text-generation".toList then
      let text := jsOr (getPath parsed ["delta".toList, "message".toList, "content".toList, "text".toList])
        (parsed.getField ("text".toList))
      match text with
      | some t => if t.truthy then { st with events := st.events ++ [.text t] } else st
      | none => st
    else if et = "tool-call-start".toList then
      let deltaStart := getPath parsed ["delta".toList, "message".toList, "tool_calls".toList]
      match deltaStart with
      | some ds =>
        if ds.truthy then
          match ds.getField ("function".toList) with
          | none => st            -- accessing `.name` on undefined throws; line is skipped
          | some .null => st      -- accessing `.name` on null throws; line is skipped
          | some fn =>
            let args : Str := match jsOr (fn.getField ("arguments".toList)) none with
              | some a => a.jsStr
              | none => []
            let frag : ToolCallFrag :=
              { id := ds.getField ("id".toList), name := fn.getField ("name".toList),
                arguments := args }
            { st with toolCalls := mapSet st.toolCalls (parsed.getField ("index".toList)) frag }
        else st
      | none => st
    else if et = "tool-call-delta".toList then
      let deltaArgs := getPath parsed
        ["delta".toList, "message".toList, "tool_calls".toList, "function".toList, "arguments".toList]
      let idx := parsed.getField ("index".toList)
      match mapGet st.toolCalls idx, deltaArgs with
      | some _, some d =>
        if d.truthy then
          let m := mapUpdate st.toolCalls idx (fun c => { c with arguments := c.arguments ++ d.jsStr })
          { st with toolCalls := m }
        else st
      | _, _ => st
    else if et = "message-end".toList then
      let toolCalls := st.toolCalls.map (·.2)
      if 0 < toolCalls.length then
        let ev := Emit.dispatch toolCalls (parsed.getField ("message".toList))
        { st with events := st.events ++ [ev], terminated := true }
      else
        { st with events := st.events ++ [.complete], terminated := true }
    else if et = "stream-end".toList then
      { st with events := st.events ++ [.complete], terminated := true }
    else st

/-- Processing of one complete line (source lines 86–142): trim, skip
blanks, record `event:` headers, strip the `data: ` prefix, ignore
non-object lines, then parse and dispatch; parse failures only log. -/
def stepLine (st : DecState) (line : Str) : DecState :=
  let trimmed := jsTrim line
  if trimmed.isEmpty then st
  else if ("event:".toList).isPrefixOf trimmed then
    { st with currentEventType := some (jsTrim (trimmed.drop 6)) }
  else
    let cleanLine := if ("data: ".toList).isPrefixOf trimmed then trimmed.drop 6 else trimmed
    if cleanLine.head? ≠ some lbrace then st
    else
      match jsonParse cleanLine with
      | none => st
      | some parsed => handleParsed st parsed

/-- One step of the `for (const line of lines)` loop: after a terminal
event `readStream` has returned, so remaining lines are not processed. -/
def stepLineT (st : DecState) (line : Str) : DecState :=
  if st.terminated then st else stepLine st line

/-- JS `buffer.split('\n')`. -/
def splitNl : Str → List Str
  | [] => [[]]
  | c :: rest =>
    match splitNl rest with
    | [] => [[]]
    | l :: ls => if c = '\n' then [] :: l :: ls else (c :: l) :: ls

/-- One iteration of the `while` read loop of `readStream` (source lines
83–143): append the decoded chunk to the buffer, split on newlines, keep
the last (possibly incomplete) fragment as the new buffer, and process
every complete line in order.  After a terminal event the reader is
cancelled and no further chunk is read, so the state is returned
unchanged (the buffer is dead at that point; it is normalized to `[]`). -/
def processChunk (st : DecState) (chunk : Str) : DecState :=
  if st.terminated then st
  else
    let lines := splitNl (st.buffer ++ chunk)
    let st1 := lines.dropLast.foldl stepLineT { st with buffer := [] }
    { st1 with buffer := if st1.terminated then [] else lines.getLastD [] }

/-- The decoder's initial state for one HTTP response. -/
def initState : DecState :=
  { buffer := [], currentEventType := none, toolCalls := [], terminated := false, events := [] }

/-- Feed a sequence of decoded text chunks through `readStream`. -/
def runChunks (chunks : List Str) : DecState :=
  chunks.foldl processChunk initState

/-- The observable event sequence of `readStream` on a chunked stream:
the per-line emissions, plus the trailing `subject.complete()` when the
stream ends without a terminal event. -/
def readStreamEvents (chunks : List Str) : List Emit :=
  let st := runChunks chunks
  if st.terminated then st.events else st.events ++ [.complete]

/-- Character-at-a-time reformulation of the buffering loop, used to
prove that chunk boundaries are invisible: a newline flushes the buffer
through `stepLine`, any other character is appended to the buffer. -/
def feedChar (st : DecState) (c : Char) : DecState :=
  if st.terminated then st
  else if c = '\n' then stepLine { st with buffer := [] } st.buffer
  else { st with buffer := st.buffer ++ [c] }

/-- Feed a list of characters one at a time. -/
def feedChars (st : DecState) (cs : Str) : DecState :=
  cs.foldl feedChar st

/-! ## The tool executor (`CohereService.handleToolCalls`, source lines
154–199) and its helpers -/

/-- The `toolCache`: a JS `Map` from `name + ':' + normalizedArguments`
to the raw (pre-serialization) result list. -/
abbrev ToolCache := List (Str × List Json)

/-- JS `toolCache.get` / `toolCache.has`. -/
def cacheGet (c : ToolCache) (k : Str) : Option (List Json) :=
  (c.find? (fun e => e.1 = k)).map (·.2)

/-- JS `toolCache.set`. -/
def cacheSet (c : ToolCache) (k : Str) (v : List Json) : ToolCache :=
  match c with
  | [] => [(k, v)]
  | e :: rest => if e.1 = k then (e.1, v) :: rest else e :: cacheSet rest k v

/-- A registered tool (`config.tools` entry): the handler is a function
from the parsed arguments to either a result value or the string
`String(err)` of the value it threw. -/
structure ToolSpec where
  name : Str
  description : Str
  parameters : Option Json
  handler : Option (Json → Except Str Json)

/-- The slice of `CohereConfig` the core reads when building request
bodies (`apiKey`/`apiUrl` only feed the transport). -/
structure ChatConfig where
  modelName : Str
  tools : Option (List ToolSpec)
  documents : Option Json

/-- One tool-result message (`wrapToolResult` output):
`\x7b role: 'tool', tool_call_id, content \x7d`. -/
structure ToolMsg where
  role : Str
  tool_call_id : Option Json
  content : Str
deriving Inhabited

/-- Embeds `wrapToolResult(id, content)` (source lines 203–205). -/
def wrapToolResult (id : Option Json) (content : Json) : ToolMsg :=
  { role := "tool".toList, tool_call_id := id, content := jsonStringify content }

/-- JS strict equality `t.name === call.name` between a string and an
accumulated (possibly `undefined`) name. -/
def strictEqName (tname : Str) (cname : Option Json) : Bool :=
  match cname with
  | some (.str s) => tname = s
  | _ => false

/-- JS `String(err)` for the thrown `new Error('Tool handler for "<name>"
not found')`: `Error.prototype.toString` prefixes the error name. -/
def notFoundMsg (cname : Option Json) : Str :=
  "Error: Tool handler for \"".toList ++ jsTemplate cname ++ "\" not found".toList

/-- The object `\x7b error: <msg> \x7d`. -/
def errObj (msg : Str) : Json :=
  .obj [("error".toList, .str msg)]

/-- JS `String(err)` for a `SyntaxError` thrown by `JSON.parse` on the
normalized arguments (engine-specific text; this path is unreachable for
`ensureJsonString` outputs). -/
def parseFailureMsg : Str :=
  "SyntaxError: Unexpected token".toList

/-- JS `Array.isArray(result) ? result : [result]`. -/
def listNorm : Json → List Json
  | .arr xs => xs
  | j => [j]

/-- The cache key `call.name + ':' + ensureJsonString(call.arguments)`
of a call (template-literal interpolation of the name). -/
def cacheKeyOf (call : ToolCallFrag) : Str :=
  jsTemplate call.name ++ ':' :: ensureJsonString (some (.str call.arguments))

/-- One call's branch of the `Promise.all` map (source lines 155–177):
returns the tool message, whether the handler was invoked, and the cache
write performed (`none` on cache hit or on any failure).  All branches
read the cache as it stood when the batch started: each async callback
runs its synchronous prefix — the `has` check and the handler invocation
— before any callback's `set` executes. -/
def execCall (tools : Option (List ToolSpec)) (cache : ToolCache) (call : ToolCallFrag) :
    ToolMsg × Bool × Option (Str × List Json) :=
  let safeArgs := ensureJsonString (some (.str call.arguments))
  let cacheKey := jsTemplate call.name ++ ':' :: safeArgs
  match cacheGet cache cacheKey with
  | some cached => (wrapToolResult call.id (.arr cached), false, none)
  | none =>
    match (tools.getD []).find? (fun t => strictEqName t.name call.name) with
    | none => (wrapToolResult call.id (errObj (notFoundMsg call.name)), false, none)
    | some tool =>
      match tool.handler with
      | none => (wrapToolResult call.id (errObj (notFoundMsg call.name)), false, none)
      | some h =>
        match jsonParse safeArgs with
        | none => (wrapToolResult call.id (errObj parseFailureMsg), false, none)
        | some params =>
          match h params with
          | .error e => (wrapToolResult call.id (errObj e), true, none)
          | .ok r =>
            let result := listNorm r
            (wrapToolResult call.id (.arr result), true, some (cacheKey, result))

/-- The result of one executor batch: the tool messages in input order,
the cache after all successful writes, and how many handler invocations
occurred. -/
structure ExecOut where
  results : List ToolMsg
  cache : ToolCache
  invocations : Nat

/-- The fan-out/fan-in of `handleToolCalls` (source lines 155–177):
every call is executed against the entry cache; the writes of successful
calls are then applied. -/
def runToolCalls (tools : Option (List ToolSpec)) (cache : ToolCache)
    (calls : List ToolCallFrag) : ExecOut :=
  let outs := calls.map (execCall tools cache)
  { results := outs.map (·.1),
    cache := outs.foldl (fun c o => match o.2.2 with | some kv => cacheSet c kv.1 kv.2 | none => c) cache,
    invocations := (outs.filter (·.2.1)).length }

/-! ## The continuation request (`handleToolCalls`, source lines 178–198,
and `transformTools`, lines 206–217) -/

/-- A JS object literal whose `undefined`-valued properties are omitted
(they are dropped by `JSON.stringify` when the body is serialized). -/
def objOpt (fields : List (Str × Option Json)) : Json :=
  .obj (fields.filterMap (fun f => f.2.map (fun v => (f.1, v))))

/-- Embeds `transformTools(tools)` (source lines 206–217). -/
def transformTools (tools : Option (List ToolSpec)) : Option (List Json) :=
  match tools with
  | none => none
  | some ts =>
    if ts.length = 0 then none
    else some (ts.map (fun t =>
      let params := if optTruthy t.parameters then t.parameters.getD .null
        else
          .obj [("type".toList, .str ("object".toList)), ("properties".toList, .obj []),
            ("required".toList, .arr [])]
      Json.obj [("type".toList, .str ("function".toList)),
        ("function".toList, .obj [("name".toList, .str t.name),
          ("description".toList, .str t.description), ("parameters".toList, params)])]))

/-- The tool-call reference built from an element of
`assistantMessage.tool_calls` (source lines 184–191). -/
def toolCallRefOfJson (tc : Json) : Json :=
  objOpt [("id".toList, jsOr (tc.getField ("id".toList)) (tc.getField ("tool_call_id".toList))),
    ("type".toList, some (.str ("function".toList))),
    ("function".toList, some (objOpt
      [("name".toList, jsOr (tc.getField ("name".toList)) (optChain (tc.getField ("function".toList)) ("name".toList))),
       ("arguments".toList, some (.str (ensureJsonString (jsOr (tc.getField ("arguments".toList))
         (optChain (tc.getField ("function".toList)) ("arguments".toList))))))]))]

/-- The tool-call reference built from an accumulated fragment
(`tc.tool_call_id` and `tc.function` are absent on fragments). -/
def toolCallRefOfFrag (tc : ToolCallFrag) : Json :=
  objOpt [("id".toList, jsOr tc.id none),
    ("type".toList, some (.str ("function".toList))),
    ("function".toList, some (objOpt
      [("name".toList, jsOr tc.name none),
       ("arguments".toList, some (.str (ensureJsonString
         (if (Json.str tc.arguments).truthy then some (.str tc.arguments) else none))))]))]

/-- The expression `(assistantMessage?.tool_calls \x7c\x7c toolCalls).map(...)`: `none`
models the `TypeError` thrown when `tool_calls` is a truthy non-array. -/
def toolCallRefs (assistantMessage : Option Json) (toolCalls : List ToolCallFrag) :
    Option (List Json) :=
  let src := optChain assistantMessage ("tool_calls".toList)
  if optTruthy src then
    match src with
    | some (.arr l) => some (l.map toolCallRefOfJson)
    | _ => none
  else some (toolCalls.map toolCallRefOfFrag)

/-- The request body shape (`documents = none` models an absent field). -/
structure RequestBody where
  model : Str
  messages : List Json
  stream : Bool
  tools : Option (List Json)
  documents : Option Json

/-- A tool-result message as it appears in the continuation history. -/
def toolMsgToJson (m : ToolMsg) : Json :=
  objOpt [("role".toList, some (.str m.role)), ("tool_call_id".toList, m.tool_call_id),
    ("content".toList, some (.str m.content))]

/-- The `nextBody` of `handleToolCalls` (source lines 178–197): previous
history, one assistant message carrying the tool-call references, then
the tool results; `stream: true`, same model and transformed tools, and
no `documents` property. -/
def nextBody (config : ChatConfig) (toolCalls : List ToolCallFrag)
    (assistantMessage : Option Json) (previousMessages : List Json)
    (toolResults : List ToolMsg) : Option RequestBody :=
  (toolCallRefs assistantMessage toolCalls).map (fun refs =>
    { model := config.modelName,
      messages := previousMessages
        ++ [Json.obj [("role".toList, .str ("assistant".toList)), ("tool_calls".toList, .arr refs)]]
        ++ toolResults.map toolMsgToJson,
      stream := true,
      tools := transformTools config.tools,
      documents := none })

/-- The initial request body built by `generateResponse` (source lines
27–33), which does carry the configured documents. -/
def initialBody (config : ChatConfig) (messages : List Json) : RequestBody :=
  { model := config.modelName, messages := messages, stream := true,
    tools := transformTools config.tools, documents := config.documents }

/-! ## The cancellation gate (`stopStream` / `generateResponse`, source
lines 16–36, and the abort branch of `processRequest`, lines 59–67) -/

/-- Controller bookkeeping of one `CohereService` instance: the single
`abortController` slot (controllers are numbered), the next fresh
controller number, and the set of controllers that have received
`abort()`. -/
structure SvcState where
  controller : Option Nat
  nextId : Nat
  aborted : List Nat

/-- Embeds `stopStream()`: `abortController?.abort(); abortController = null`. -/
def stopStream (s : SvcState) : SvcState :=
  match s.controller with
  | some c => { s with aborted := s.aborted ++ [c], controller := none }
  | none => s

/-- The controller discipline of `generateResponse`: `stopStream()` first,
then install a fresh controller before the request is issued. -/
def generateResponseCtl (s : SvcState) : SvcState :=
  let s1 := stopStream s
  { s1 with controller := some s1.nextId, nextId := s1.nextId + 1 }

/-- Terminal signal delivered on the output subject. -/
inductive StreamOutcome where
  | completed
  | errored (name : Str)
deriving Inhabited

/-- The `catch` of `processRequest` (source lines 59–67): an
`AbortError` completes the subject; anything else errors it. -/
def processRequestCatch (errName : Str) : StreamOutcome :=
  if errName = "AbortError".toList then .completed else .errored errName

/-! ## Concrete protocol events and fixtures used in statements -/

/-- A parsed `tool-call-start` event
(`\x7b type, index, delta: \x7b message: \x7b tool_calls: \x7b id,
function: \x7b name, arguments \x7d \x7d \x7d \x7d \x7d`). -/
def mkStartEvent (idx id nm : Json) (args : Str) : Json :=
  .obj [("type".toList, .str ("tool-call-start".toList)),
    ("index".toList, idx),
    ("delta".toList, .obj [("message".toList, .obj [("tool_calls".toList,
      .obj [("id".toList, id),
        ("function".toList, .obj [("name".toList, nm), ("arguments".toList, .str args)])])])])]

/-- A parsed `tool-call-delta` event carrying an argument fragment. -/
def mkDeltaEvent (idx : Json) (d : Str) : Json :=
  .obj [("type".toList, .str ("tool-call-delta".toList)),
    ("index".toList, idx),
    ("delta".toList, .obj [("message".toList, .obj [("tool_calls".toList,
      .obj [("function".toList, .obj [("arguments".toList, .str d)])])])])]

/-- A parsed `message-end` event, optionally carrying the assistant
message payload. -/
def mkMessageEndEvent (am : Option Json) : Json :=
  .obj (("type".toList, Json.str ("message-end".toList)) ::
    (match am with
     | some m => [("message".toList, m)]
     | none => []))

/-- The accumulator holds at most one entry per key (true of every
reachable `toolCallsMap`, since `Map.set` overwrites). -/
def KeysUnique (m : List (Option Json × ToolCallFrag)) : Prop :=
  ∀ k, (m.filter (fun e => keyBeq e.1 k)).length ≤ 1

/-- A registry with one tool, `echo`, whose handler wraps its parsed
arguments in a singleton list. -/
def toolsEcho : Option (List ToolSpec) :=
  some [{ name := "echo".toList, description := [], parameters := none,
          handler := some (fun p => .ok (.arr [p])) }]

/-- A registry with one tool, `boom`, whose handler always throws. -/
def toolsBoom : Option (List ToolSpec) :=
  some [{ name := "boom".toList, description := [], parameters := none,
          handler := some (fun _ => .error ("Error: fail".toList)) }]

/-- A call to `echo` with arguments `'\x7b\x7d'`. -/
def callEcho : ToolCallFrag :=
  { id := some (.str ['c', '1']), name := some (.str ("echo".toList)), arguments := emptyObjStr }

/-- A call to `boom` with arguments `'\x7b\x7d'`. -/
def callBoom : ToolCallFrag :=
  { id := some (.str ['c', '2']), name := some (.str ("boom".toList)), arguments := emptyObjStr }

/-- A call to the unregistered tool `lookup`. -/
def callLookup : ToolCallFrag :=
  { id := some (.str ['1']), name := some (.str ("lookup".toList)), arguments := emptyObjStr }

/-- Emit one final action and mark the decoder terminated (the common
shape of the `message-end` and `stream-end` arms). -/
def terminate (st : DecState) (ev : Emit) : DecState :=
  { st with events := st.events ++ [ev], terminated := true }

/-! ## Helper lemmas: accumulator map and tool cache -/

theorem mapGet_eq_head_filter (m : List (Option Json × ToolCallFrag)) (k : Option Json) :
    mapGet m k = ((m.filter (fun e => keyBeq e.1 k)).head?).map (·.2) := by
  induction m with
  | nil => rfl
  | cons e rest ih =>
    cases hb : keyBeq e.1 k
    · simp only [mapGet, List.find?, List.filter_cons, hb] at *
      simp only [Bool.false_eq_true, if_false]
      exact ih
    · simp [mapGet, List.find?, List.filter_cons, hb]

theorem filter_mapSet_self (m : List (Option Json × ToolCallFrag)) (k : Option Json)
    (v : ToolCallFrag) (h : (m.filter (fun e => keyBeq e.1 k)).length ≤ 1) :
    ((mapSet m k v).filter (fun e => keyBeq e.1 k)).map (·.2) = [v] := by
  induction m with
  | nil => simp [mapSet, keyBeq_refl]
  | cons e rest ih =>
    cases hb : keyBeq e.1 k
    · rw [List.filter_cons] at h
      simp only [hb] at h
      rw [show mapSet (e :: rest) k v = e :: mapSet rest k v by simp [mapSet, hb]]
      rw [List.filter_cons]
      simp only [hb]
      simp only [Bool.false_eq_true, if_false] at h ⊢
      exact ih h
    · have hrest : rest.filter (fun e => keyBeq e.1 k) = [] := by
        rw [List.filter_cons] at h
        simp only [hb, if_true, List.length_cons] at h
        exact List.length_eq_zero.mp (by omega)
      simp [mapSet, hb, List.filter_cons, hrest]

theorem filter_mapUpdate_self (m : List (Option Json × ToolCallFrag)) (k : Option Json)
    (f : ToolCallFrag → ToolCallFrag) (c : ToolCallFrag)
    (h : (m.filter (fun e => keyBeq e.1 k)).map (·.2) = [c]) :
    ((mapUpdate m k f).filter (fun e => keyBeq e.1 k)).map (·.2) = [f c] := by
  induction m with
  | nil => simp at h
  | cons e rest ih =>
    cases hb : keyBeq e.1 k
    · rw [List.filter_cons] at h
      simp only [hb] at h
      rw [show mapUpdate (e :: rest) k f = e :: mapUpdate rest k f by simp [mapUpdate, hb]]
      rw [List.filter_cons]
      simp only [hb]
      simp only [Bool.false_eq_true, if_false] at h ⊢
      exact ih h
    · rw [List.filter_cons] at h
      simp only [hb, if_true, List.map_cons, List.cons_eq_cons] at h
      rw [show mapUpdate (e :: rest) k f = (e.1, f e.2) :: rest by simp [mapUpdate, hb]]
      rw [List.filter_cons]
      simp only [hb, if_true, List.map_cons]
      simp [h.1, h.2]

theorem cacheGet_cacheSet_self (c : ToolCache) (k : Str) (v : List Json) :
    cacheGet (cacheSet c k v) k = some v := by
  induction c with
  | nil => simp [cacheSet, cacheGet, List.find?]
  | cons e rest ih =>
    by_cases hb : e.1 = k
    · simp [cacheSet, cacheGet, List.find?, hb]
    · simp only [cacheSet, if_neg hb, cacheGet, List.find?] at *
      simp only [hb] at *
      simpa using ih

theorem mapGet_of_filter_fact (m : List (Option Json × ToolCallFrag)) (k : Option Json)
    (c : ToolCallFrag) (h : (m.filter (fun e => keyBeq e.1 k)).map (·.2) = [c]) :
    mapGet m k = some c := by
  rw [mapGet_eq_head_filter, ← List.head?_map, h]
  rfl

theorem mapUpdate_append_nil (m : List (Option Json × ToolCallFrag)) (k : Option Json) :
    mapUpdate m k (fun c => { c with arguments := c.arguments ++ [] }) = m := by
  induction m with
  | nil => rfl
  | cons e rest ih =>
    cases hb : keyBeq e.1 k
    · simp only [mapUpdate, hb, Bool.false_eq_true, if_false]
      rw [ih]
    · simp only [mapUpdate, hb, if_true]
      have : { e.2 with arguments := e.2.arguments ++ [] } = e.2 := by
        cases e.2
        simp
      rw [this]

/-! ## Helper lemmas: the per-event behaviour of `handleParsed` -/

theorem handleParsed_mkStart (st : DecState) (idx id nm : Json) (s : Str) :
    handleParsed st (mkStartEvent idx id nm s) =
      { st with toolCalls := mapSet st.toolCalls (some idx) ⟨some id, some nm, s⟩ } := by
  cases s with
  | nil => rfl
  | cons c cs => rfl

theorem handleParsed_mkDelta_of_none (st : DecState) (idx : Json) (d : Str)
    (h : mapGet st.toolCalls (some idx) = none) :
    handleParsed st (mkDeltaEvent idx d) = st := by
  have key : handleParsed st (mkDeltaEvent idx d) =
      (match mapGet st.toolCalls (some idx), (some (Json.str d) : Option Json) with
       | some _, some dd =>
         if dd.truthy then
           let m := mapUpdate st.toolCalls (some idx)
             (fun c => { c with arguments := c.arguments ++ dd.jsStr })
           { st with toolCalls := m }
         else st
       | _, _ => st) := rfl
  rw [key, h]

theorem handleParsed_mkDelta_of_some (st : DecState) (idx : Json) (d : Str) (c : ToolCallFrag)
    (h : mapGet st.toolCalls (some idx) = some c) :
    handleParsed st (mkDeltaEvent idx d) =
      { st with toolCalls := mapUpdate st.toolCalls (some idx) (fun c2 => { c2 with arguments := c2.arguments ++ d }) } := by
  have key : handleParsed st (mkDeltaEvent idx d) =
      (match mapGet st.toolCalls (some idx), (some (Json.str d) : Option Json) with
       | some _, some dd =>
         if dd.truthy then
           let m := mapUpdate st.toolCalls (some idx)
             (fun c2 => { c2 with arguments := c2.arguments ++ dd.jsStr })
           { st with toolCalls := m }
         else st
       | _, _ => st) := rfl
  rw [key, h]
  cases d with
  | nil =>
    show st = _
    rw [mapUpdate_append_nil]
  | cons c2 cs => rfl

theorem foldl_mkDelta (idx : Json) : ∀ (ds : List Str) (st : DecState) (c : ToolCallFrag),
    (st.toolCalls.filter (fun e => keyBeq e.1 (some idx))).map (·.2) = [c] →
    ((((ds.map (mkDeltaEvent idx)).foldl handleParsed st).toolCalls.filter
        (fun e => keyBeq e.1 (some idx))).map (·.2)) =
      [{ c with arguments := c.arguments ++ ds.flatten }] := by
  intro ds
  induction ds with
  | nil =>
    intro st c h
    simp only [List.map_nil, List.foldl_nil, List.flatten_nil]
    rw [show { c with arguments := c.arguments ++ ([] : Str) } = c by cases c; simp]
    exact h
  | cons d ds ih =>
    intro st c h
    simp only [List.map_cons, List.foldl_cons, List.flatten_cons]
    rw [handleParsed_mkDelta_of_some st idx d c (mapGet_of_filter_fact _ _ _ h)]
    have h2 := filter_mapUpdate_self st.toolCalls (some idx)
      (fun c2 => { c2 with arguments := c2.arguments ++ d }) c h
    have h3 := ih { st with toolCalls := mapUpdate st.toolCalls (some idx) (fun c2 => { c2 with arguments := c2.arguments ++ d }) } { c with arguments := c.arguments ++ d } (by simpa using h2)
    simpa [List.append_assoc] using h3

/-- C6: Orphan-delta drop: a `tool-call-delta` event whose index has
no fragment in the accumulator leaves the decoder state unchanged — no
fragment is created or modified and no failure is signalled. -/
theorem orphan_delta_dropped (st : DecState) (idx : Json) (d : Str)
    (h : mapGet st.toolCalls (some idx) = none) :
    handleParsed st (mkDeltaEvent idx d) = st := by
  have key : handleParsed st (mkDeltaEvent idx d) =
      (match mapGet st.toolCalls (some idx), (some (Json.str d) : Option Json) with
       | some _, some dd =>
         if dd.truthy then
           let m := mapUpdate st.toolCalls (some idx)
             (fun c => { c with arguments := c.arguments ++ dd.jsStr })
           { st with toolCalls := m }
         else st
       | _, _ => st) := rfl
  rw [key, h]

/-- Witness for C6 at a concrete input: a delta at index `2` on an empty
accumulator is dropped. -/
theorem orphan_delta_dropped_witness :
    handleParsed initState (mkDeltaEvent (Json.num ['2']) ['x']) = initState :=
  orphan_delta_dropped initState (Json.num ['2']) ['x'] rfl

/-- C5: Tool-call accumulation: a `tool-call-start` at index `idx`
with initial arguments `s` followed by delta fragments `ds` at the same
index leaves exactly one fragment at that index, whose arguments are the
concatenation `s ++ ds.flatten` and whose id and name are those of the
start event. -/
theorem tool_call_accumulation (st : DecState) (idx id nm : Json) (s : Str) (ds : List Str)
    (hset : KeysUnique st.toolCalls) :
    (((((ds.map (mkDeltaEvent idx)).foldl handleParsed
          (handleParsed st (mkStartEvent idx id nm s))).toolCalls.filter
        (fun e => keyBeq e.1 (some idx))).map (·.2)) =
      [⟨some id, some nm, s ++ ds.flatten⟩]) ∧
    mapGet ((ds.map (mkDeltaEvent idx)).foldl handleParsed
        (handleParsed st (mkStartEvent idx id nm s))).toolCalls (some idx) =
      some ⟨some id, some nm, s ++ ds.flatten⟩ := by
  rw [handleParsed_mkStart]
  have h1 := filter_mapSet_self st.toolCalls (some idx) ⟨some id, some nm, s⟩ (hset (some idx))
  have h2 := foldl_mkDelta idx ds { st with toolCalls := mapSet st.toolCalls (some idx) ⟨some id, some nm, s⟩ } ⟨some id, some nm, s⟩ h1
  exact ⟨h2, mapGet_of_filter_fact _ _ _ h2⟩

/-- Witness for C5 at a concrete input: a start at index `0` with
arguments `"a"` followed by deltas `"b"`, `"c"` accumulates `"abc"`. -/
theorem tool_call_accumulation_witness :
    (((([['b'], ['c']].map (mkDeltaEvent (Json.num ['0']))).foldl handleParsed
          (handleParsed initState (mkStartEvent (Json.num ['0']) (Json.str ['i']) (Json.str ['f']) ['a']))).toolCalls.filter
        (fun e => keyBeq e.1 (some (Json.num ['0'])))).map (·.2) =
      [⟨some (Json.str ['i']), some (Json.str ['f']), ['a', 'b', 'c']⟩]) ∧
    mapGet (([['b'], ['c']].map (mkDeltaEvent (Json.num ['0']))).foldl handleParsed
        (handleParsed initState (mkStartEvent (Json.num ['0']) (Json.str ['i']) (Json.str ['f']) ['a']))).toolCalls
      (some (Json.num ['0'])) =
      some ⟨some (Json.str ['i']), some (Json.str ['f']), ['a', 'b', 'c']⟩ :=
  tool_call_accumulation initState (Json.num ['0']) (Json.str ['i']) (Json.str ['f']) ['a']
    [['b'], ['c']] (fun k => by simp [initState])

/-! ## Helper lemmas: the tool executor -/

theorem execCall_wraps (tools : Option (List ToolSpec)) (cache : ToolCache)
    (call : ToolCallFrag) :
    ∃ j, (execCall tools cache call).1 = wrapToolResult call.id j := by
  unfold execCall
  dsimp only
  repeat' split
  all_goals exact ⟨_, rfl⟩

theorem execCall_shape (tools : Option (List ToolSpec)) (cache : ToolCache)
    (call : ToolCallFrag) :
    ((execCall tools cache call).1).role = "tool".toList ∧
    ((execCall tools cache call).1).tool_call_id = call.id := by
  obtain ⟨j, hj⟩ := execCall_wraps tools cache call
  rw [hj]
  exact ⟨rfl, rfl⟩

/-- C3: Result completeness and order: the executor returns exactly
one result per input call, in input order; the `i`-th result carries role
`tool` and the `tool_call_id` of the `i`-th input call, whatever mixture
of unregistered names, throwing handlers and cache hits the batch holds. -/
theorem result_completeness (tools : Option (List ToolSpec)) (cache : ToolCache)
    (calls : List ToolCallFrag) (i : Nat) (h : i < calls.length) :
    (runToolCalls tools cache calls).results.length = calls.length ∧
    ((runToolCalls tools cache calls).results.getD i default).role = "tool".toList ∧
    ((runToolCalls tools cache calls).results.getD i default).tool_call_id =
      (calls.getD i default).id := by
  have hm : (runToolCalls tools cache calls).results =
      calls.map (fun c => (execCall tools cache c).1) := by
    simp [runToolCalls]
  refine ⟨by rw [hm]; simp, ?_, ?_⟩
  · rw [hm, List.getD_eq_getElem?_getD, List.getElem?_map, List.getElem?_eq_getElem h]
    exact (execCall_shape tools cache _).1
  · rw [hm, List.getD_eq_getElem?_getD, List.getElem?_map, List.getElem?_eq_getElem h,
      List.getD_eq_getElem?_getD, List.getElem?_eq_getElem h]
    exact (execCall_shape tools cache _).2

/-- Witness for C3 at a concrete input: a batch of a registered call and
an unregistered call yields two results; the second result has role
`tool` and the second call's id. -/
theorem result_completeness_witness :
    (runToolCalls toolsEcho [] [callEcho, callLookup]).results.length =
      [callEcho, callLookup].length ∧
    ((runToolCalls toolsEcho [] [callEcho, callLookup]).results.getD 1 default).role =
      "tool".toList ∧
    ((runToolCalls toolsEcho [] [callEcho, callLookup]).results.getD 1 default).tool_call_id =
      ([callEcho, callLookup].getD 1 default).id :=
  result_completeness toolsEcho [] [callEcho, callLookup] 1 (by decide)

theorem execCall_write_key (tools : Option (List ToolSpec)) (cache : ToolCache)
    (call : ToolCallFrag) (p : Str × List Json)
    (h : (execCall tools cache call).2.2 = some p) : p.1 = cacheKeyOf call := by
  unfold execCall at h
  dsimp only at h
  repeat' split at h
  all_goals simp_all [cacheKeyOf, Prod.ext_iff]

theorem execCall_cache_hit (tools : Option (List ToolSpec)) (cache : ToolCache)
    (call : ToolCallFrag) (list : List Json)
    (h : cacheGet cache (cacheKeyOf call) = some list) :
    execCall tools cache call = (wrapToolResult call.id (.arr list), false, none) := by
  unfold execCall
  dsimp only
  rw [show (jsTemplate call.name ++ ':' :: ensureJsonString (some (Json.str call.arguments))) =
    cacheKeyOf call from rfl, h]

theorem execCall_cache_congr (tools : Option (List ToolSpec)) (cache cache2 : ToolCache)
    (call : ToolCallFrag)
    (h : cacheGet cache (cacheKeyOf call) = cacheGet cache2 (cacheKeyOf call)) :
    execCall tools cache call = execCall tools cache2 call := by
  unfold execCall
  dsimp only
  rw [show (jsTemplate call.name ++ ':' :: ensureJsonString (some (Json.str call.arguments))) =
    cacheKeyOf call from rfl, h]

/-- C2: Cache idempotence: when a call's first execution succeeds
(the handler ran and its normalized result list was written to the
cache), a second execution of the same `(name, arguments)` pair finds the
result under the key `name + ':' + ensureJsonString(arguments)` and
returns it without invoking the handler: one invocation in total. -/
theorem cache_idempotence (tools : Option (List ToolSpec)) (cache : ToolCache)
    (call : ToolCallFrag) (msg : ToolMsg) (key : Str) (list : List Json)
    (h : execCall tools cache call = (msg, true, some (key, list))) :
    cacheGet (runToolCalls tools cache [call]).cache (cacheKeyOf call) = some list ∧
    execCall tools (runToolCalls tools cache [call]).cache call =
      (wrapToolResult call.id (.arr list), false, none) ∧
    (runToolCalls tools cache [call]).invocations = 1 ∧
    (runToolCalls tools (runToolCalls tools cache [call]).cache [call]).invocations = 0 := by
  have hkey : key = cacheKeyOf call := by
    have := execCall_write_key tools cache call (key, list) (by rw [h])
    simpa using this
  subst hkey
  have hc1 : (runToolCalls tools cache [call]).cache = cacheSet cache (cacheKeyOf call) list := by
    simp [runToolCalls, h]
  have hget : cacheGet (runToolCalls tools cache [call]).cache (cacheKeyOf call) = some list := by
    rw [hc1]
    exact cacheGet_cacheSet_self cache (cacheKeyOf call) list
  have hsecond : execCall tools (runToolCalls tools cache [call]).cache call =
      (wrapToolResult call.id (.arr list), false, none) :=
    execCall_cache_hit tools _ call list hget
  refine ⟨hget, hsecond, ?_, ?_⟩
  · simp [runToolCalls, h, List.filter_cons]
  · have hsecond2 : execCall tools (cacheSet cache (cacheKeyOf call) list) call =
        (wrapToolResult call.id (.arr list), false, none) := by
      rw [← hc1]
      exact hsecond
    simp [runToolCalls, h, hsecond2, List.filter_cons]

/-- Witness for C2 at a concrete input: `echo('\x7b\x7d')` executed twice. -/
theorem cache_idempotence_witness :
    cacheGet (runToolCalls toolsEcho [] [callEcho]).cache (cacheKeyOf callEcho) =
      some [Json.obj []] ∧
    execCall toolsEcho (runToolCalls toolsEcho [] [callEcho]).cache callEcho =
      (wrapToolResult callEcho.id (.arr [Json.obj []]), false, none) ∧
    (runToolCalls toolsEcho [] [callEcho]).invocations = 1 ∧
    (runToolCalls toolsEcho (runToolCalls toolsEcho [] [callEcho]).cache [callEcho]).invocations = 0 :=
  cache_idempotence toolsEcho [] callEcho
    (wrapToolResult callEcho.id (.arr [Json.obj []])) (cacheKeyOf callEcho) [Json.obj []] rfl

/-- C7 counterexample: The claim's exact error text is wrong: for
the unregistered tool `lookup`, the produced content is not the JSON
serialization of `\x7b error: 'Tool handler for "lookup" not found' \x7d` —
the code stringifies the thrown `Error`, which prefixes `Error: `. -/
theorem unknown_tool_error_claim_false :
    ((execCall (some []) [] callLookup).1).content ≠
      jsonStringify (errObj ("Tool handler for \"lookup\" not found".toList)) := by
  decide

/-- C7 amended: Unknown-tool error result: when the cache has no
entry for the call's key and no registered tool with a handler matches
the call's name, the executor produces the message
`JSON.stringify(\x7b error: 'Error: Tool handler for "<name>" not found' \x7d)`
(the `String(err)` rendering of the thrown `Error`), invokes no handler,
and writes nothing to the cache under that call's key. -/
theorem unknown_tool_error_result (tools : Option (List ToolSpec)) (cache : ToolCache)
    (call : ToolCallFrag)
    (hmiss : cacheGet cache (cacheKeyOf call) = none)
    (hno : ((tools.getD []).find? (fun t => strictEqName t.name call.name)).bind
      ToolSpec.handler = none) :
    execCall tools cache call =
      (wrapToolResult call.id (errObj (notFoundMsg call.name)), false, none) ∧
    cacheGet (runToolCalls tools cache [call]).cache (cacheKeyOf call) = none := by
  have hexec : execCall tools cache call =
      (wrapToolResult call.id (errObj (notFoundMsg call.name)), false, none) := by
    unfold execCall
    dsimp only
    rw [show (jsTemplate call.name ++ ':' :: ensureJsonString (some (Json.str call.arguments))) =
      cacheKeyOf call from rfl, hmiss]
    cases hfind : (tools.getD []).find? (fun t => strictEqName t.name call.name) with
    | none => rfl
    | some t =>
      rw [hfind] at hno
      simp only [Option.some_bind] at hno
      simp [hno]
  refine ⟨hexec, ?_⟩
  simpa [runToolCalls, hexec] using hmiss

/-- Witness for C7's amended theorem at a concrete input. -/
theorem unknown_tool_error_result_witness :
    execCall (some []) [] callLookup =
      (wrapToolResult callLookup.id (errObj (notFoundMsg callLookup.name)), false, none) ∧
    cacheGet (runToolCalls (some []) [] [callLookup]).cache (cacheKeyOf callLookup) = none :=
  unknown_tool_error_result (some []) [] callLookup rfl rfl

/-- C10: Failed tool invocations are never cached: (1) every cache
write of an executor run carries the normalized result list of a handler
invocation that completed without throwing (unregistered tools, argument
parse failures and throwing handlers write nothing); (2) a call that
performs no write leaves the cache of its run unchanged; (3) hence after
a run in which the handler threw, executing the same call again
re-invokes the handler instead of replaying the error. -/
theorem failed_calls_not_cached (tools : Option (List ToolSpec)) (cache : ToolCache)
    (call : ToolCallFrag) :
    (∀ k v, (execCall tools cache call).2.2 = some (k, v) →
      ∃ t hd params r,
        (tools.getD []).find? (fun t2 => strictEqName t2.name call.name) = some t ∧
        t.handler = some hd ∧
        jsonParse (ensureJsonString (some (.str call.arguments))) = some params ∧
        hd params = .ok r ∧ v = listNorm r ∧ (execCall tools cache call).2.1 = true) ∧
    ((execCall tools cache call).2.2 = none →
      (runToolCalls tools cache [call]).cache = cache) ∧
    ((execCall tools cache call).2 = (true, none) →
      (execCall tools (runToolCalls tools cache [call]).cache call).2.1 = true) := by
  have hnone : (execCall tools cache call).2.2 = none →
      (runToolCalls tools cache [call]).cache = cache := by
    intro h
    simp [runToolCalls, h]
  refine ⟨?_, hnone, ?_⟩
  · intro k v h
    unfold execCall at h ⊢
    dsimp only at h ⊢
    repeat' split at h
    all_goals simp_all [Prod.ext_iff]
  · intro h
    have h22 : (execCall tools cache call).2.2 = none := by rw [h]
    have h21 : (execCall tools cache call).2.1 = true := by rw [h]
    rw [hnone h22]
    exact h21

/-- Witness for C10 at a concrete input: `boom`'s handler throws; its
run writes nothing for the call's key, and a second run invokes the
handler again. -/
theorem failed_calls_not_cached_witness :
    (runToolCalls toolsBoom [] [callBoom]).cache = [] ∧
    (execCall toolsBoom (runToolCalls toolsBoom [] [callBoom]).cache callBoom).2.1 = true :=
  ⟨(failed_calls_not_cached toolsBoom [] callBoom).2.1 rfl,
   (failed_calls_not_cached toolsBoom [] callBoom).2.2 rfl⟩

/-- C9: Single-flight cancellation gate: `stopStream` with no
controller installed is a no-op; `generateResponse` first aborts the
existing controller (whose surfacing `AbortError` completes — does not
error — the prior output subject) and then installs a fresh controller,
so the single `abortController` slot never refers to an old controller
after a new generation starts. -/
theorem single_flight_gate (s : SvcState) :
    (s.controller = none → stopStream s = s) ∧
    (∀ c, s.controller = some c → c ∈ (generateResponseCtl s).aborted) ∧
    (generateResponseCtl s).controller = some s.nextId ∧
    (∀ c, s.controller = some c → c < s.nextId →
      (generateResponseCtl s).controller ≠ some c) ∧
    processRequestCatch ("AbortError".toList) = .completed := by
  refine ⟨?_, ?_, ?_, ?_, rfl⟩
  · intro h
    simp [stopStream, h]
  · intro c h
    simp [generateResponseCtl, stopStream, h]
  · cases h : s.controller <;> simp [generateResponseCtl, stopStream, h]
  · intro c h hlt
    cases hs : s.controller <;> simp [generateResponseCtl, stopStream, hs] <;> omega

/-- Witness for C9 at a concrete state: controller `0` installed,
next fresh id `1`. -/
theorem single_flight_gate_witness :
    stopStream ⟨none, 5, []⟩ = ⟨none, 5, []⟩ ∧
    (0 : Nat) ∈ (generateResponseCtl ⟨some 0, 1, []⟩).aborted ∧
    (generateResponseCtl ⟨some 0, 1, []⟩).controller ≠ some 0 :=
  ⟨(single_flight_gate ⟨none, 5, []⟩).1 rfl,
   (single_flight_gate ⟨some 0, 1, []⟩).2.1 0 rfl,
   (single_flight_gate ⟨some 0, 1, []⟩).2.2.2.1 0 rfl (by decide)⟩

theorem handleParsed_messageEnd (st : DecState) (am : Option Json)
    (hne : st.toolCalls ≠ []) :
    handleParsed st (mkMessageEndEvent am) =
      terminate st (Emit.dispatch (st.toolCalls.map (·.2)) am) := by
  have hpos : 0 < (st.toolCalls.map (·.2)).length := by
    rw [List.length_map]
    exact List.length_pos.mpr hne
  cases am with
  | none =>
    have key : handleParsed st (mkMessageEndEvent none) =
        (if 0 < (st.toolCalls.map (·.2)).length then
          terminate st (Emit.dispatch (st.toolCalls.map (·.2)) none)
         else terminate st Emit.complete) := rfl
    rw [key, if_pos hpos]
  | some m =>
    have key : handleParsed st (mkMessageEndEvent (some m)) =
        (if 0 < (st.toolCalls.map (·.2)).length then
          terminate st (Emit.dispatch (st.toolCalls.map (·.2)) (some m))
         else terminate st Emit.complete) := rfl
    rw [key, if_pos hpos]

/-- C4: Continuation request construction: a `message-end` event
with a non-empty accumulator dispatches the accumulated tool calls with
the event's assistant message, and the follow-up body consists of the
previous messages, then exactly one assistant message carrying the
tool-call references, then the tool-result messages in order, with
`stream: true`, the same model, the same transformed tools, and no
`documents` field. -/
theorem continuation_request (config : ChatConfig) (cache : ToolCache) (st : DecState)
    (am : Option Json) (prev : List Json) (refs : List Json)
    (hne : st.toolCalls ≠ [])
    (hrefs : toolCallRefs am (st.toolCalls.map (·.2)) = some refs) :
    handleParsed st (mkMessageEndEvent am) =
      terminate st (Emit.dispatch (st.toolCalls.map (·.2)) am) ∧
    nextBody config (st.toolCalls.map (·.2)) am prev
        (runToolCalls config.tools cache (st.toolCalls.map (·.2))).results =
      some { model := config.modelName,
             messages := prev
               ++ [Json.obj [("role".toList, .str ("assistant".toList)),
                    ("tool_calls".toList, .arr refs)]]
               ++ ((runToolCalls config.tools cache (st.toolCalls.map (·.2))).results).map
                    toolMsgToJson,
             stream := true,
             tools := transformTools config.tools,
             documents := none } := by
  refine ⟨handleParsed_messageEnd st am hne, ?_⟩
  unfold nextBody
  rw [hrefs]
  rfl

/-- A one-fragment decoder state used to witness C4. -/
def stOneCall : DecState :=
  { initState with toolCalls := [(some (Json.num ['0']),
      ⟨some (Json.str ['i']), some (Json.str ("echo".toList)), emptyObjStr⟩)] }

/-- A concrete configuration (carrying documents on the initial turn)
used to witness C4. -/
def configEcho : ChatConfig :=
  { modelName := ['m'], tools := toolsEcho, documents := some (Json.arr [Json.str ['d']]) }

/-- Witness for C4 at a concrete input. -/
theorem continuation_request_witness :
    handleParsed stOneCall (mkMessageEndEvent none) =
      terminate stOneCall (Emit.dispatch (stOneCall.toolCalls.map (·.2)) none) ∧
    nextBody configEcho (stOneCall.toolCalls.map (·.2)) none []
        (runToolCalls configEcho.tools [] (stOneCall.toolCalls.map (·.2))).results =
      some { model := configEcho.modelName,
             messages := []
               ++ [Json.obj [("role".toList, .str ("assistant".toList)),
                    ("tool_calls".toList,
                     .arr ((stOneCall.toolCalls.map (·.2)).map toolCallRefOfFrag))]]
               ++ ((runToolCalls configEcho.tools [] (stOneCall.toolCalls.map (·.2))).results).map
                    toolMsgToJson,
             stream := true,
             tools := transformTools configEcho.tools,
             documents := none } := by
  have h := continuation_request configEcho [] stOneCall none []
    [toolCallRefOfFrag ⟨some (Json.str ['i']), some (Json.str ("echo".toList)), emptyObjStr⟩]
    (by simp [stOneCall]) rfl
  exact h

/-! ## Helper lemmas: `JSON.parse ∘ JSON.stringify` on strings -/

theorem hexVal_hexDigit : ∀ n : Nat, n < 16 → hexVal (hexDigit n) = some n := by decide

theorem parseStringBody_unicode (c : Char) (hc : c.toNat < 32) (tail : Str) :
    parseStringBody
        ('\\' :: 'u' :: '0' :: '0' :: hexDigit (c.toNat / 16) :: hexDigit (c.toNat % 16) :: tail) =
      (parseStringBody tail).map (fun p => (c :: p.1, p.2)) := by
  have ha := hexVal_hexDigit (c.toNat / 16) (by omega)
  have hb := hexVal_hexDigit (c.toNat % 16) (by omega)
  have hch : Char.ofNat (c.toNat / 16 * 16 + c.toNat % 16) = c := by
    rw [show c.toNat / 16 * 16 + c.toNat % 16 = c.toNat by omega, Char.ofNat_toNat]
  have h0 : hexVal '0' = some 0 := rfl
  rw [parseStringBody.eq_def]
  simp [h0, ha, hb, hch]

theorem parseStringBody_named (e c2 : Char) (he : ¬ e = 'u') (hname : escName e = some c2)
    (tail : Str) :
    parseStringBody ('\\' :: e :: tail) = (parseStringBody tail).map (fun p => (c2 :: p.1, p.2)) := by
  rw [parseStringBody.eq_def]
  simp [he, hname]

theorem parseStringBody_other (c : Char) (h1 : ¬ c = '"') (h2 : ¬ c = '\\')
    (h8 : ¬ c.toNat < 32) (tail : Str) :
    parseStringBody (c :: tail) = (parseStringBody tail).map (fun p => (c :: p.1, p.2)) := by
  rw [parseStringBody.eq_def]
  simp [h1, h2, h8]

theorem parseStringBody_escape (s : Str) : ∀ rest : Str,
    parseStringBody (escapeStr s ++ '"' :: rest) = some (s, rest) := by
  induction s with
  | nil =>
    intro rest
    rw [show escapeStr [] ++ '"' :: rest = '"' :: rest from rfl, parseStringBody.eq_def]
    simp
  | cons c cs ih =>
    intro rest
    have hsplit : escapeStr (c :: cs) ++ '"' :: rest =
        escapeChar c ++ (escapeStr cs ++ '"' :: rest) := by
      simp [escapeStr, List.append_assoc]
    rw [hsplit]
    by_cases h1 : c = '"'
    · subst h1
      rw [show escapeChar '"' ++ (escapeStr cs ++ '"' :: rest) =
          '\\' :: '"' :: (escapeStr cs ++ '"' :: rest) from rfl]
      rw [parseStringBody_named '"' '"' (by decide) rfl, ih]
      rfl
    · by_cases h2 : c = '\\'
      · subst h2
        rw [show escapeChar '\\' ++ (escapeStr cs ++ '"' :: rest) =
            '\\' :: '\\' :: (escapeStr cs ++ '"' :: rest) from rfl]
        rw [parseStringBody_named '\\' '\\' (by decide) rfl, ih]
        rfl
      · by_cases h3 : c = '\n'
        · subst h3
          rw [show escapeChar '\n' ++ (escapeStr cs ++ '"' :: rest) =
              '\\' :: 'n' :: (escapeStr cs ++ '"' :: rest) from rfl]
          rw [parseStringBody_named 'n' '\n' (by decide) rfl, ih]
          rfl
        · by_cases h4 : c = '\r'
          · subst h4
            rw [show escapeChar '\r' ++ (escapeStr cs ++ '"' :: rest) =
                '\\' :: 'r' :: (escapeStr cs ++ '"' :: rest) from rfl]
            rw [parseStringBody_named 'r' '\r' (by decide) rfl, ih]
            rfl
          · by_cases h5 : c = '\t'
            · subst h5
              rw [show escapeChar '\t' ++ (escapeStr cs ++ '"' :: rest) =
                  '\\' :: 't' :: (escapeStr cs ++ '"' :: rest) from rfl]
              rw [parseStringBody_named 't' '\t' (by decide) rfl, ih]
              rfl
            · by_cases h6 : c.toNat = 8
              · have hc : c = Char.ofNat 8 := by rw [← h6, Char.ofNat_toNat]
                subst hc
                rw [show escapeChar (Char.ofNat 8) ++ (escapeStr cs ++ '"' :: rest) =
                    '\\' :: 'b' :: (escapeStr cs ++ '"' :: rest) from rfl]
                rw [parseStringBody_named 'b' (Char.ofNat 8) (by decide) rfl, ih]
                rfl
              · by_cases h7 : c.toNat = 12
                · have hc : c = Char.ofNat 12 := by rw [← h7, Char.ofNat_toNat]
                  subst hc
                  rw [show escapeChar (Char.ofNat 12) ++ (escapeStr cs ++ '"' :: rest) =
                      '\\' :: 'f' :: (escapeStr cs ++ '"' :: rest) from rfl]
                  rw [parseStringBody_named 'f' (Char.ofNat 12) (by decide) rfl, ih]
                  rfl
                · by_cases h8 : c.toNat < 32
                  · rw [show escapeChar c =
                        '\\' :: 'u' :: '0' :: '0' :: hexDigit (c.toNat / 16) ::
                          hexDigit (c.toNat % 16) :: [] from by
                      simp [escapeChar, h1, h2, h3, h4, h5, h6, h7, h8]]
                    rw [show ('\\' :: 'u' :: '0' :: '0' :: hexDigit (c.toNat / 16) ::
                        hexDigit (c.toNat % 16) :: []) ++ (escapeStr cs ++ '"' :: rest) =
                        '\\' :: 'u' :: '0' :: '0' :: hexDigit (c.toNat / 16) ::
                        hexDigit (c.toNat % 16) :: (escapeStr cs ++ '"' :: rest) from rfl]
                    rw [parseStringBody_unicode c h8, ih]
                    rfl
                  · rw [show escapeChar c = [c] from by
                      simp [escapeChar, h1, h2, h3, h4, h5, h6, h7, h8]]
                    rw [show [c] ++ (escapeStr cs ++ '"' :: rest) =
                        c :: (escapeStr cs ++ '"' :: rest) from rfl]
                    rw [parseStringBody_other c h1 h2 h8, ih]
                    rfl

theorem parseValue_quote (fuel : Nat) (cs : Str) :
    parseValue (fuel + 1) ('"' :: cs) =
      (parseStringBody cs).map (fun p => (Json.str p.1, p.2)) := by
  simp [parseValue]

theorem jsonParse_stringifyStr (s : Str) :
    jsonParse (jsonStringifyStr s) = some (.str s) := by
  have hskip : skipWs (jsonStringifyStr s) = '"' :: (escapeStr s ++ ['"']) := by
    simp [skipWs, jsonStringifyStr, List.dropWhile_cons, jsonWs]
  rw [jsonParse, hskip, parseValue_quote]
  rw [show escapeStr s ++ ['"'] = escapeStr s ++ '"' :: [] from rfl, parseStringBody_escape s []]
  simp [skipWs]

theorem jsTrim_of_all_ws (s : Str) (h : s.all jsWsChar) : jsTrim s = [] := by
  have h1 : s.dropWhile jsWsChar = [] :=
    List.dropWhile_eq_nil_iff.mpr (fun x hx => by
      exact List.all_eq_true.mp h x hx)
  simp [jsTrim, h1]

/-- C8: the `ensureJsonString` normalization: `undefined` and
empty/whitespace-only strings normalize to `'\x7b\x7d'`; a string whose
trimmed text parses as JSON is returned trimmed and otherwise unchanged;
and any other non-empty string is re-encoded as a JSON string literal
that parses back to exactly the trimmed original text. -/
theorem ensure_json_string_normalization :
    ensureJsonString none = emptyObjStr ∧
    (∀ s : Str, s.all jsWsChar → ensureJsonString (some (.str s)) = emptyObjStr) ∧
    (∀ s : Str, (jsonParse (jsTrim s)).isSome → ensureJsonString (some (.str s)) = jsTrim s) ∧
    (∀ s : Str, jsTrim s ≠ [] → jsonParse (jsTrim s) = none →
      ensureJsonString (some (.str s)) = jsonStringifyStr (jsTrim s) ∧
      jsonParse (jsonStringifyStr (jsTrim s)) = some (.str (jsTrim s))) := by
  have hkey : ∀ (c : Char) (cs : Str), ensureJsonString (some (.str (c :: cs))) =
      (if (jsTrim (c :: cs)).isEmpty then emptyObjStr
       else if (jsonParse (jsTrim (c :: cs))).isSome then jsTrim (c :: cs)
       else jsonStringifyStr (jsTrim (c :: cs))) := fun c cs => rfl
  refine ⟨rfl, ?_, ?_, ?_⟩
  · intro s hws
    cases s with
    | nil => rfl
    | cons c cs =>
      rw [hkey, jsTrim_of_all_ws _ hws]
      rfl
  · intro s hsome
    cases s with
    | nil => exact absurd hsome (by decide)
    | cons c cs =>
      by_cases htr : jsTrim (c :: cs) = []
      · rw [htr] at hsome
        exact absurd hsome (by decide)
      · rw [hkey, if_neg (by simpa [List.isEmpty_iff] using htr), if_pos hsome]
  · intro s hne hparse
    cases s with
    | nil => exact absurd rfl hne
    | cons c cs =>
      refine ⟨?_, jsonParse_stringifyStr (jsTrim (c :: cs))⟩
      rw [hkey, if_neg (by simpa [List.isEmpty_iff] using hne), if_neg (by simp [hparse])]

/-- Witness for C8 at concrete inputs: a whitespace-only string, the
valid JSON text `1`, and the non-JSON text `hi`. -/
theorem ensure_json_string_normalization_witness :
    ensureJsonString (some (.str [' '])) = emptyObjStr ∧
    ensureJsonString (some (.str ['1'])) = jsTrim ['1'] ∧
    (ensureJsonString (some (.str ['h', 'i'])) = jsonStringifyStr (jsTrim ['h', 'i']) ∧
      jsonParse (jsonStringifyStr (jsTrim ['h', 'i'])) = some (.str (jsTrim ['h', 'i']))) :=
  ⟨ensure_json_string_normalization.2.1 [' '] (by decide),
   ensure_json_string_normalization.2.2.1 ['1'] (by decide),
   ensure_json_string_normalization.2.2.2 ['h', 'i'] (by decide) (by rfl)⟩

/-! ## Helper lemmas: frame-splitting invariance of the buffering loop -/

theorem splitNl_ne_nil (s : Str) : splitNl s ≠ [] := by
  cases s with
  | nil => simp [splitNl]
  | cons c rest =>
    cases h : splitNl rest with
    | nil => simp [splitNl, h]
    | cons l ls =>
      simp only [splitNl, h]
      split <;> simp

theorem splitNl_noNl (s : Str) (h : ∀ c ∈ s, c ≠ '\n') : splitNl s = [s] := by
  induction s with
  | nil => rfl
  | cons c rest ih =>
    have hc : c ≠ '\n' := h c (by simp)
    have ih2 := ih (fun x hx => h x (by simp [hx]))
    simp only [splitNl, ih2]
    simp [hc]

theorem splitNl_append_newline (b : Str) (rest : Str) (h : ∀ c ∈ b, c ≠ '\n') :
    splitNl (b ++ '\n' :: rest) = b :: splitNl rest := by
  induction b with
  | nil =>
    cases hr : splitNl rest with
    | nil => exact absurd hr (splitNl_ne_nil rest)
    | cons l ls => simp [splitNl, hr]
  | cons c b2 ih =>
    have hc : c ≠ '\n' := h c (by simp)
    have ih2 := ih (fun x hx => h x (by simp [hx]))
    rw [List.cons_append]
    simp only [splitNl, ih2]
    simp [hc]

theorem handleParsed_buffer (st : DecState) (p : Json) :
    (handleParsed st p).buffer = st.buffer := by
  unfold handleParsed
  dsimp only
  repeat' split
  all_goals rfl

theorem stepLine_buffer (st : DecState) (l : Str) :
    (stepLine st l).buffer = st.buffer := by
  unfold stepLine
  dsimp only
  repeat' split
  all_goals first
    | rfl
    | apply handleParsed_buffer

theorem foldl_stepLineT_of_terminated (ls : List Str) (st : DecState)
    (h : st.terminated = true) : ls.foldl stepLineT st = st := by
  induction ls with
  | nil => rfl
  | cons l ls ih =>
    rw [List.foldl_cons, show stepLineT st l = st from by simp [stepLineT, h]]
    exact ih

theorem feedChars_of_terminated (cs : Str) (st : DecState)
    (h : st.terminated = true) : feedChars st cs = st := by
  induction cs with
  | nil => rfl
  | cons c cs ih =>
    rw [show feedChars st (c :: cs) = feedChars (feedChar st c) cs from rfl]
    rw [show feedChar st c = st from by simp [feedChar, h]]
    exact ih

theorem buffer_self_eta (st : DecState) : { st with buffer := st.buffer } = st := rfl

theorem set_buffer_self (st : DecState) (b : Str) (h : st.buffer = b) :
    { st with buffer := b } = st := by
  subst h
  rfl

theorem processChunk_eq_feedChars : ∀ (cs : Str) (st : DecState),
    st.terminated = false → (∀ c ∈ st.buffer, c ≠ '\n') →
    processChunk st cs = feedChars st cs := by
  intro cs
  induction cs with
  | nil =>
    intro st hterm hb
    show processChunk st [] = st
    unfold processChunk
    rw [if_neg (by simp [hterm])]
    dsimp only
    rw [List.append_nil, splitNl_noNl st.buffer hb]
    simp only [List.dropLast_single, List.foldl_nil, List.getLastD_cons, List.getLastD_nil]
    simp only [hterm, Bool.false_eq_true, if_false]
    rw [← hterm]
  | cons c cs2 ih =>
    intro st hterm hb
    by_cases hc : c = '\n'
    · subst hc
      -- right-hand side: one newline flushes the buffer through stepLine
      rw [show feedChars st ('\n' :: cs2) = feedChars (feedChar st '\n') cs2 from rfl]
      rw [show feedChar st '\n' = stepLine { st with buffer := [] } st.buffer from by
        simp [feedChar, hterm]]
      -- left-hand side
      obtain ⟨l2, ls2, hsp⟩ : ∃ l ls, splitNl cs2 = l :: ls := by
        cases h : splitNl cs2 with
        | nil => exact absurd h (splitNl_ne_nil cs2)
        | cons l ls => exact ⟨l, ls, rfl⟩
      unfold processChunk
      rw [if_neg (by simp [hterm])]
      dsimp only
      rw [splitNl_append_newline st.buffer cs2 hb, hsp, List.dropLast_cons₂, List.foldl_cons]
      rw [show stepLineT { st with buffer := [] } st.buffer =
          stepLine { st with buffer := [] } st.buffer from by simp [stepLineT, hterm]]
      have hbuf : (stepLine { st with buffer := [] } st.buffer).buffer = [] :=
        stepLine_buffer { st with buffer := [] } st.buffer
      cases hT : (stepLine { st with buffer := [] } st.buffer).terminated
      · -- the line did not terminate the stream: recurse
        rw [← ih (stepLine { st with buffer := [] } st.buffer) hT (by simp [hbuf])]
        unfold processChunk
        rw [if_neg (show ¬((stepLine { st with buffer := [] } st.buffer).terminated = true) by
          simp [hT])]
        dsimp only
        rw [hbuf, List.nil_append, hsp]
        rw [set_buffer_self (stepLine { st with buffer := [] } st.buffer) [] hbuf]
        have hgl : (st.buffer :: l2 :: ls2).getLastD ([] : Str) = (l2 :: ls2).getLastD [] := by
          simp only [List.getLastD_cons]
        rw [hgl]
      · -- a terminal event: remaining lines and chunks are ignored
        rw [foldl_stepLineT_of_terminated _ _ hT, feedChars_of_terminated _ _ hT]
        rw [if_pos hT]
        exact set_buffer_self _ [] hbuf
    · -- an ordinary character only extends the buffer
      rw [show feedChars st (c :: cs2) = feedChars (feedChar st c) cs2 from rfl]
      rw [show feedChar st c = { st with buffer := st.buffer ++ [c] } from by
        simp [feedChar, hterm, hc]]
      rw [← ih { st with buffer := st.buffer ++ [c] } (by simp [hterm]) (by
        intro x hx
        simp only [List.mem_append, List.mem_singleton] at hx
        rcases hx with hx | hx
        · exact hb x hx
        · subst hx; exact hc)]
      unfold processChunk
      rw [if_neg (by simp [hterm]), if_neg (by simp [hterm])]
      dsimp only
      rw [show st.buffer ++ c :: cs2 = (st.buffer ++ [c]) ++ cs2 from by
        rw [List.append_cons]]

theorem feedChars_buffer_noNl : ∀ (cs : Str) (st : DecState),
    (∀ c ∈ st.buffer, c ≠ '\n') → ∀ c2 ∈ (feedChars st cs).buffer, c2 ≠ '\n' := by
  intro cs
  induction cs with
  | nil => intro st h; exact h
  | cons c cs2 ih =>
    intro st h
    rw [show feedChars st (c :: cs2) = feedChars (feedChar st c) cs2 from rfl]
    apply ih
    cases hterm : st.terminated
    · by_cases hc : c = '\n'
      · subst hc
        intro x hx
        rw [show feedChar st '\n' = stepLine { st with buffer := [] } st.buffer from by
          simp [feedChar, hterm]] at hx
        rw [stepLine_buffer] at hx
        simp at hx
      · intro x hx
        rw [show feedChar st c = { st with buffer := st.buffer ++ [c] } from by
          simp [feedChar, hterm, hc]] at hx
        simp only [List.mem_append, List.mem_singleton] at hx
        rcases hx with hx | hx
        · exact h x hx
        · subst hx; exact hc
    · rw [show feedChar st c = st from by simp [feedChar, hterm]]
      exact h

theorem processChunk_eq_feedChars_general (cs : Str) (st : DecState)
    (hb : ∀ c ∈ st.buffer, c ≠ '\n') :
    processChunk st cs = feedChars st cs := by
  cases hterm : st.terminated
  · exact processChunk_eq_feedChars cs st hterm hb
  · rw [feedChars_of_terminated cs st hterm]
    unfold processChunk
    rw [if_pos hterm]

theorem runChunks_eq_feedChars : ∀ (chunks : List Str) (st : DecState),
    (∀ c ∈ st.buffer, c ≠ '\n') →
    chunks.foldl processChunk st = feedChars st chunks.flatten := by
  intro chunks
  induction chunks with
  | nil => intro st h; rfl
  | cons ck cks ih =>
    intro st h
    rw [List.foldl_cons, processChunk_eq_feedChars_general ck st h]
    rw [ih (feedChars st ck) (feedChars_buffer_noNl ck st h)]
    rw [show (ck :: cks).flatten = ck ++ cks.flatten from rfl]
    unfold feedChars
    rw [List.foldl_append]

/-- C1: Frame-splitting invariance: feeding any chunking of a fixed
stream content through `readStream`'s buffering loop (append to buffer,
split on newline, keep the final fragment, process complete lines,
stop at a terminal event) emits exactly the same event sequence, in the
same order, as feeding the entire content as one chunk — no line is
lost or duplicated at read boundaries. -/
theorem frame_splitting_invariance (chunks : List Str) :
    readStreamEvents chunks = readStreamEvents [chunks.flatten] := by
  unfold readStreamEvents runChunks
  rw [runChunks_eq_feedChars chunks initState (by intro c hc; simp [initState] at hc)]
  rw [show ([chunks.flatten].foldl processChunk initState) =
      processChunk initState chunks.flatten from rfl]
  rw [processChunk_eq_feedChars_general chunks.flatten initState
    (by intro c hc; simp [initState] at hc)]

end AiChat
